import Mathlib

/-!
Verification of the decorator-based web framework in `src/lib.ts`
(`createApp` and its helpers), shallowly embedded in Lean.

Classes are identified by natural numbers; the metadata that the decorators
attach (controller prefixes, route verbs and path templates, parameter
descriptors, and the constructor parameter-type lists emitted as
`design:paramtypes`) is collected in an `Env`.  Object identity is modelled
by an allocation counter: every `new` in the source allocates a fresh
instance id, recorded in a heap together with the class and constructor
arguments, so that "the identical instance" is expressible as equality of
instance ids.
-/

set_option autoImplicit false

namespace OwnNest

/-- JavaScript values as seen by the framework: request bodies, route
parameter objects and bound handler arguments. -/
inductive JsValue where
  | undefined
  | str (s : String)
  | num (n : Int)
  | obj (fields : List (String × JsValue))

/-- First-match association-list lookup; embeds both `Map.get` (the JS `Map`
has unique keys, and the embedding only adds a key that is not yet present,
so consing a fresh entry coincides with `Map.set`) and JS object property
lookup. -/
def alget {α β : Type} [DecidableEq α] : List (α × β) → α → Option β
  | [], _ => none
  | (k, v) :: rest, c => if c = k then some v else alget rest c

/-- Property access `o[k]`: `undefined` when the receiver is not an object
or the field is absent. -/
def JsValue.getField : JsValue → String → JsValue
  | .obj fields, k => (alget fields k).getD .undefined
  | _, _ => .undefined

/-- The `HandlerParamType` enum of the source. -/
inductive HandlerParamType where
  | ROUTE_PARAM
  | BODY
deriving DecidableEq

/-- The `HttpMethod` enum of the source. -/
inductive HttpMethod where
  | GET
  | POST
deriving DecidableEq

/-- A parameter descriptor `{ key, type }` as stored by
`getHandlerParamDecorator`; `key` is the possibly-undefined string passed to
`Param` / `Body`. -/
structure ParamMeta where
  key : Option String
  type : HandlerParamType
deriving DecidableEq

/-- JS truthiness of a `string | undefined` value: `undefined` and the empty
string are falsy. -/
def jsTruthy : Option String → Bool
  | none => false
  | some s => s != ""

/-- Metadata attached to one method of a controller prototype: the route
verb (`HTTP_METHOD_KEY`), the path template (`PATH_KEY`), the per-index
parameter-descriptor map (`PARAMS_META_KEY`), and the length of the
method-level `design:paramtypes` list (absent when the compiler emitted no
metadata for the method). -/
structure MethodInfo where
  name : String
  httpMethod : Option HttpMethod
  path : Option String
  paramsMeta : List (Nat × ParamMeta)
  paramCount : Option Nat
deriving DecidableEq

/-- Metadata attached to one class: its `name`, its constructor
`design:paramtypes` (absent when the class carries no annotation), the
`CONTROLLER_PREFIX_KEY` value, and its prototype methods in `ownKeys`
order. -/
structure ClassInfo where
  name : String
  paramtypes : Option (List Nat)
  ctrlPfx : Option String
  methods : List MethodInfo
deriving DecidableEq

/-- The metadata world one `createApp` call observes: per-class metadata
plus the `providers` and `controllers` lists the `Module` decorator stored
on the root module class. -/
structure Env where
  classes : Nat → ClassInfo
  providers : List Nat
  controllers : List Nat

/-- The mutable state of the assembler: the `providerInstances` cache
(class id to instance id), the allocation counter, and the heap recording
for every allocated instance its class and constructor arguments. -/
structure DIState where
  cache : List (Nat × Nat)
  nextId : Nat
  heap : List (Nat × (Nat × List Nat))
deriving DecidableEq

/-- Resolve a list of classes left to right with `f`, threading the state:
the `deps.map(instantiateProvider)` of the source. -/
def threadMap (f : Nat → DIState → Option (Nat × DIState)) :
    List Nat → DIState → Option (List Nat × DIState)
  | [], st => some ([], st)
  | c :: cs, st =>
    match f c st with
    | none => none
    | some (i, st₁) =>
      match threadMap f cs st₁ with
      | none => none
      | some (is, st₂) => some (i :: is, st₂)

/-- The `instantiateProvider` routine of the source, with an explicit stack budget:
return the cached instance if present, otherwise resolve the declared
dependencies first (`design:paramtypes`, defaulted to `[]` when absent),
construct the instance, and cache it before returning.  `none` models stack
exhaustion (the source has no cycle guard). -/
def instantiateProvider (env : Env) : Nat → Nat → DIState → Option (Nat × DIState)
  | 0, _, _ => none
  | fuel + 1, cls, st =>
    match alget st.cache cls with
    | some inst => some (inst, st)
    | none =>
      match threadMap (instantiateProvider env fuel) (((env.classes cls).paramtypes).getD []) st with
      | none => none
      | some (args, st₁) =>
        some (st₁.nextId,
          { cache := (cls, st₁.nextId) :: st₁.cache,
            nextId := st₁.nextId + 1,
            heap := (st₁.nextId, (cls, args)) :: st₁.heap })

/-- The eager provider pass:
`Reflect.getMetadata(PROVIDERS_KEY, module).forEach(instantiateProvider)`. -/
def runProviders (env : Env) (fuel : Nat) : List Nat → DIState → Option DIState
  | [], st => some st
  | c :: cs, st =>
    match instantiateProvider env fuel c st with
    | none => none
    | some (_, st₁) => runProviders env fuel cs st₁

/-- Abrupt endings of assembly: the thrown missing-provider `Error`
(carrying the offending class name), the `TypeError` from calling `.map` on
absent `design:paramtypes` metadata, and stack exhaustion from a dependency
cycle. -/
inductive AssembleError where
  | missingProvider (name : String)
  | typeError
  | stackOverflow
deriving DecidableEq

/-- The message of the thrown configuration error. -/
def errorMessage : AssembleError → String
  | .missingProvider n => "You forgot to add " ++ n ++ " to the providers array of the module"
  | .typeError => "TypeError"
  | .stackOverflow => "Maximum call stack size exceeded"

/-- Controller constructor-argument resolution: each parameter class is
looked up in the provider cache only, and the first one absent aborts with
the named error (the `providerInstances.has` check inside the `.map`). -/
def resolveCtorParams (env : Env) (cache : List (Nat × Nat)) :
    List Nat → Except AssembleError (List Nat)
  | [] => .ok []
  | c :: cs =>
    match alget cache c with
    | none => .error (.missingProvider (env.classes c).name)
    | some i =>
      match resolveCtorParams env cache cs with
      | .error e => .error e
      | .ok is => .ok (i :: is)

/-- JS template-literal rendering of a `string | undefined` value. -/
def jsStr : Option String → String
  | none => "undefined"
  | some s => s

/-- JS `String.prototype.startsWith`, on the underlying character
sequences. -/
def jsStartsWith (s pre : String) : Bool :=
  pre.data.isPrefixOf s.data

/-- The prefix fixup of the source: a truthy prefix that does not already
start with a slash gets one prepended. -/
def normalizePfx : Option String → Option String
  | none => none
  | some s => if s != "" && !(jsStartsWith s "/") then some ("/" ++ s) else some s

/-- The registered full path: the template literal on the (possibly
undefined) normalized prefix and path. -/
def fullPathOf (p path : Option String) : String :=
  jsStr (normalizePfx p) ++ jsStr path

/-- One route registered on the express app: the verb and full path passed
to `app[httpMethod](...)` together with what the handler closure captures
(controller instance, controller class, method name and the
`PARAMS_META_KEY` map read at registration time). -/
structure Route where
  httpMethod : HttpMethod
  fullPath : String
  ctrlInstance : Nat
  ctrlClass : Nat
  methodName : String
  paramsMeta : List (Nat × ParamMeta)
deriving DecidableEq

/-- Route registration for one controller: exactly the prototype members
carrying `HTTP_METHOD_KEY` own-metadata are kept, in order, and each
becomes one `(verb, fullPath)` registration. -/
def registerRoutes (env : Env) (cls : Nat) (inst : Nat) : List Route :=
  ((env.classes cls).methods.filter (fun m => m.httpMethod.isSome)).map (fun m =>
    { httpMethod := m.httpMethod.getD HttpMethod.GET,
      fullPath := fullPathOf (env.classes cls).ctrlPfx m.path,
      ctrlInstance := inst,
      ctrlClass := cls,
      methodName := m.name,
      paramsMeta := m.paramsMeta })

/-- The assembled application: final assembler state, the constructed
controller instances, and the registered routes. -/
structure App where
  di : DIState
  ctrlInstances : List Nat
  routes : List Route
deriving DecidableEq

/-- The controller pass of `createApp`: read the controller constructor
`design:paramtypes` (a `TypeError` when absent — the source has no default
here), resolve every parameter from the provider cache, construct the
controller, and register its routes. -/
def processControllers (env : Env) :
    List Nat → DIState → List Nat → List Route → Except AssembleError App
  | [], st, ctrls, routes => .ok { di := st, ctrlInstances := ctrls, routes := routes }
  | c :: cs, st, ctrls, routes =>
    match (env.classes c).paramtypes with
    | none => .error .typeError
    | some ptypes =>
      match resolveCtorParams env st.cache ptypes with
      | .error e => .error e
      | .ok args =>
        processControllers env cs
          { cache := st.cache, nextId := st.nextId + 1,
            heap := (st.nextId, (c, args)) :: st.heap }
          (ctrls ++ [st.nextId]) (routes ++ registerRoutes env c st.nextId)

/-- The `createApp` routine: eagerly resolve every listed provider in list order, then
process the controllers. -/
def createApp (env : Env) (fuel : Nat) : Except AssembleError App :=
  match runProviders env fuel env.providers { cache := [], nextId := 0, heap := [] } with
  | none => .error .stackOverflow
  | some st => processControllers env env.controllers st [] []

deriving instance DecidableEq for Except

/-- Whether an `Except` result is a success. -/
def exceptOk {ε α : Type} : Except ε α → Bool
  | .ok _ => true
  | .error _ => false

/-- An incoming request as the handler sees it: the route-parameters object
`req.params`, the JSON body `req.body` parsed by `bodyParser.json()`, and
further request data the handler never consults. -/
structure Request where
  params : JsValue
  body : JsValue
  headers : List (String × String)

/-- Request-time binding of a single described parameter: pick `req.body`
or `req.params` by role, then project one field exactly when the descriptor
key is truthy (`if (paramMeta.key) return dataToPass[paramMeta.key]`). -/
def bindOne (pm : ParamMeta) (req : Request) : JsValue :=
  let dataToPass :=
    match pm.type with
    | .BODY => req.body
    | .ROUTE_PARAM => req.params
  if jsTruthy pm.key then dataToPass.getField (pm.key.getD "") else dataToPass

/-- Request-time binding of the whole argument list: one slot per declared
parameter position (the method-level `design:paramtypes` indices), with
`undefined` for positions that have no descriptor. -/
def bindParams (count : Nat) (pmeta : List (Nat × ParamMeta)) (req : Request) : List JsValue :=
  (List.range count).map (fun index =>
    match alget pmeta index with
    | none => JsValue.undefined
    | some pm => bindOne pm req)

/-- The method-level `design:paramtypes` arity the handler reads back at
request time. -/
def methodParamCount (env : Env) (c : Nat) (m : String) : Option Nat :=
  match (env.classes c).methods.find? (fun mi => mi.name == m) with
  | none => none
  | some mi => mi.paramCount

/-- The registered request handler: re-read the method arity (a missing
metadata list fails the request — the `.map` on `undefined`), bind the
arguments, invoke the controller method (`invoke` stands for the awaited
business call) and send its result.  The assembled application state is
threaded through to express that handling writes none of it. -/
def handleRequest (env : Env) (invoke : Nat → String → List JsValue → JsValue)
    (app : App) (r : Route) (req : Request) : Option JsValue × App :=
  match methodParamCount env r.ctrlClass r.methodName with
  | none => (none, app)
  | some count =>
    (some (invoke r.ctrlInstance r.methodName (bindParams count r.paramsMeta req)), app)

/-- Entries of the provider cache are never overwritten or removed. -/
def CacheMono (st st₁ : DIState) : Prop :=
  ∀ k v, alget st.cache k = some v → alget st₁.cache k = some v

/-- The provider cache is closed under declared constructor dependencies:
every cached class has all of its `design:paramtypes` classes cached too. -/
def DepClosed (env : Env) (cache : List (Nat × Nat)) : Prop :=
  ∀ c i, alget cache c = some i →
    ∀ d ∈ ((env.classes c).paramtypes).getD [], (alget cache d).isSome

/-- The invariant a resolution step preserves: the cache only grows, the
resolved class ends up cached with the returned instance, and dependency
closure of the cache is preserved. -/
def IPInv (env : Env) (f : Nat → DIState → Option (Nat × DIState)) : Prop :=
  ∀ c st i st₁, f c st = some (i, st₁) →
    CacheMono st st₁ ∧ alget st₁.cache c = some i ∧
    (DepClosed env st.cache → DepClosed env st₁.cache)

/-- States reachable from a given assembler state by further provider
resolutions. -/
inductive Reaches (env : Env) : DIState → DIState → Prop where
  | refl (st : DIState) : Reaches env st st
  | step {st st₁ st₂ : DIState} {fuel cls i : Nat} :
      instantiateProvider env fuel cls st = some (i, st₁) →
      Reaches env st₁ st₂ → Reaches env st st₂

/-- Example environment mirroring `src/index.ts`: class 0 is
`UserRepository` (no dependencies, not listed as a provider), class 1 is
`AuthService` (depends on class 0, listed), class 2 is `AuthController`
(prefix `auth`, depends on class 1, with the `login` and `profile`
routes). -/
def envEx : Env where
  classes := fun c =>
    match c with
    | 0 => { name := "UserRepository", paramtypes := some [], ctrlPfx := none, methods := [] }
    | 1 => { name := "AuthService", paramtypes := some [0], ctrlPfx := none, methods := [] }
    | _ => { name := "AuthController", paramtypes := some [1], ctrlPfx := some "auth",
             methods := [
               { name := "login", httpMethod := some HttpMethod.POST, path := some "/login",
                 paramsMeta := [(0, { key := none, type := HandlerParamType.BODY })],
                 paramCount := some 1 },
               { name := "profile", httpMethod := some HttpMethod.GET, path := some "/profile/:id",
                 paramsMeta := [(0, { key := some "id", type := HandlerParamType.ROUTE_PARAM })],
                 paramCount := some 1 }] }
  providers := [1]
  controllers := [2]

/-- The assembler state after the eager provider pass on `envEx`. -/
def stEx : DIState :=
  { cache := [(1, 1), (0, 0)], nextId := 2, heap := [(1, (1, [0])), (0, (0, []))] }

/-- The application assembled from `envEx`. -/
def appEx : App where
  di := { cache := [(1, 1), (0, 0)], nextId := 3,
          heap := [(2, (2, [1])), (1, (1, [0])), (0, (0, []))] }
  ctrlInstances := [2]
  routes :=
    [{ httpMethod := HttpMethod.POST, fullPath := "/auth/login", ctrlInstance := 2,
       ctrlClass := 2, methodName := "login",
       paramsMeta := [(0, { key := none, type := HandlerParamType.BODY })] },
     { httpMethod := HttpMethod.GET, fullPath := "/auth/profile/:id", ctrlInstance := 2,
       ctrlClass := 2, methodName := "profile",
       paramsMeta := [(0, { key := some "id", type := HandlerParamType.ROUTE_PARAM })] }]

/-- Environment exhibiting a controller dependency (class 1) that is never
listed as a provider yet is cached as a transitive dependency of the listed
class 0. -/
def envC4 : Env where
  classes := fun c =>
    match c with
    | 0 => { name := "ProviderA", paramtypes := some [1], ctrlPfx := none, methods := [] }
    | 1 => { name := "Dep", paramtypes := some [], ctrlPfx := none, methods := [] }
    | _ => { name := "Ctrl", paramtypes := some [1], ctrlPfx := some "", methods := [] }
  providers := [0]
  controllers := [2]

/-- Environment whose controller dependency (class 3) is neither listed nor
reachable from any listed provider. -/
def envC4b : Env where
  classes := fun c =>
    match c with
    | 0 => { name := "ProviderA", paramtypes := some [], ctrlPfx := none, methods := [] }
    | 3 => { name := "Ghost", paramtypes := some [], ctrlPfx := none, methods := [] }
    | _ => { name := "Ctrl", paramtypes := some [3], ctrlPfx := some "", methods := [] }
  providers := [0]
  controllers := [2]

/-- Environment whose only controller class carries no annotation at all:
its `design:paramtypes` metadata is absent. -/
def envC7 : Env where
  classes := fun _ => { name := "Plain", paramtypes := none, ctrlPfx := none, methods := [] }
  providers := []
  controllers := [0]

/-- A request to `/auth/profile/:id` with `id=42` (express route parameters
are strings). -/
def reqProfile : Request where
  params := JsValue.obj [("id", JsValue.str "42")]
  body := JsValue.obj []
  headers := [("host", "localhost")]

/-- A login request carrying a JSON body. -/
def reqLogin : Request where
  params := JsValue.obj []
  body := JsValue.obj [("username", JsValue.str "a"), ("password", JsValue.str "b")]
  headers := [("content-type", "application/json")]

/-- A request whose body has a field named by the empty string, separating
projection of the field `""` from passing the whole body. -/
def reqEmptyKey : Request where
  params := JsValue.obj []
  body := JsValue.obj [("", JsValue.str "x"), ("a", JsValue.str "y")]
  headers := []

/-
Helper lemmas.
-/

theorem alget_cons {α β : Type} [DecidableEq α] (k : α) (v : β) (l : List (α × β)) (c : α) :
    alget ((k, v) :: l) c = if c = k then some v else alget l c := rfl

theorem alget_cons_isSome {α β : Type} [DecidableEq α] {l : List (α × β)} {c : α}
    (k : α) (v : β) (h : (alget l c).isSome) : (alget ((k, v) :: l) c).isSome := by
  rw [alget_cons]
  split
  · rfl
  · exact h

theorem cacheMono_refl (st : DIState) : CacheMono st st := fun _ _ h => h

theorem cacheMono_trans {a b c : DIState} (h₁ : CacheMono a b) (h₂ : CacheMono b c) :
    CacheMono a c := fun k v h => h₂ k v (h₁ k v h)

theorem cacheMono_isSome {a b : DIState} (h : CacheMono a b) {k : Nat}
    (hk : (alget a.cache k).isSome) : (alget b.cache k).isSome := by
  rcases Option.isSome_iff_exists.mp hk with ⟨v, hv⟩
  exact Option.isSome_iff_exists.mpr ⟨v, h k v hv⟩

theorem instantiateProvider_succ (env : Env) (fuel cls : Nat) (st : DIState) :
    instantiateProvider env (fuel + 1) cls st =
      (match alget st.cache cls with
       | some inst => some (inst, st)
       | none =>
         match threadMap (instantiateProvider env fuel)
             (((env.classes cls).paramtypes).getD []) st with
         | none => none
         | some (args, st₁) =>
           some (st₁.nextId,
             { cache := (cls, st₁.nextId) :: st₁.cache,
               nextId := st₁.nextId + 1,
               heap := (st₁.nextId, (cls, args)) :: st₁.heap })) := rfl

theorem instantiateProvider_cached (env : Env) (fuel cls : Nat) (st : DIState) (i : Nat)
    (h : alget st.cache cls = some i) :
    instantiateProvider env (fuel + 1) cls st = some (i, st) := by
  rw [instantiateProvider_succ, h]

theorem threadMap_inv (env : Env) (f : Nat → DIState → Option (Nat × DIState))
    (hf : IPInv env f) :
    ∀ cs st is st₁, threadMap f cs st = some (is, st₁) →
      CacheMono st st₁ ∧ (∀ c ∈ cs, (alget st₁.cache c).isSome) ∧
      (DepClosed env st.cache → DepClosed env st₁.cache)
  | [], st, is, st₁, h => by
    simp only [threadMap, Option.some.injEq, Prod.mk.injEq] at h
    rcases h with ⟨-, rfl⟩
    exact ⟨cacheMono_refl st, fun c hc => absurd hc (List.not_mem_nil c), fun h => h⟩
  | c :: cs, st, is, st₁, h => by
    rw [threadMap] at h
    split at h
    · exact absurd h (by simp)
    next i st₂ h₀ =>
      split at h
      · exact absurd h (by simp)
      next is₂ st₃ h₁ =>
        simp only [Option.some.injEq, Prod.mk.injEq] at h
        rcases h with ⟨-, rfl⟩
        obtain ⟨m₁, hc₁, d₁⟩ := hf c st i st₂ h₀
        obtain ⟨m₂, hs₂, d₂⟩ := threadMap_inv env f hf cs st₂ is₂ st₃ h₁
        refine ⟨cacheMono_trans m₁ m₂, ?_, fun hd => d₂ (d₁ hd)⟩
        intro c' hc'
        rcases List.mem_cons.mp hc' with rfl | hmem
        · exact Option.isSome_iff_exists.mpr ⟨i, m₂ c' i hc₁⟩
        · exact hs₂ c' hmem

theorem instantiateProvider_inv (env : Env) :
    ∀ fuel, IPInv env (instantiateProvider env fuel)
  | 0 => by
    intro c st i st₁ h
    exact absurd h (by simp [instantiateProvider])
  | fuel + 1 => by
    intro c st i st₁ h
    rw [instantiateProvider_succ] at h
    split at h
    next inst h₀ =>
      simp only [Option.some.injEq, Prod.mk.injEq] at h
      rcases h with ⟨rfl, rfl⟩
      exact ⟨cacheMono_refl st, h₀, fun hd => hd⟩
    next h₀ =>
      split at h
      · exact absurd h (by simp)
      next args st₂ h₁ =>
        simp only [Option.some.injEq, Prod.mk.injEq] at h
        rcases h with ⟨rfl, rfl⟩
        obtain ⟨m₁, hs₁, d₁⟩ :=
          threadMap_inv env (instantiateProvider env fuel)
            (instantiateProvider_inv env fuel)
            (((env.classes c).paramtypes).getD []) st args st₂ h₁
        refine ⟨?_, ?_, ?_⟩
        · intro k v hv
          rw [alget_cons]
          split
          · next heq =>
              rw [heq, h₀] at hv
              exact Option.noConfusion hv
          · exact m₁ k v hv
        · rw [alget_cons]
          simp
        · intro hd
          have hd₂ := d₁ hd
          intro c' i' hci' d hd'
          rw [alget_cons] at hci'
          by_cases hcc : c' = c
          · subst hcc
            simp only [if_pos rfl, Option.some.injEq] at hci'
            refine alget_cons_isSome _ _ (hs₁ d ?_)
            exact hd'
          · rw [if_neg hcc] at hci'
            exact alget_cons_isSome _ _ (hd₂ c' i' hci' d hd')

theorem runProviders_inv (env : Env) (fuel : Nat) :
    ∀ cs st st₁, runProviders env fuel cs st = some st₁ →
      CacheMono st st₁ ∧ (∀ c ∈ cs, (alget st₁.cache c).isSome) ∧
      (DepClosed env st.cache → DepClosed env st₁.cache)
  | [], st, st₁, h => by
    simp only [runProviders, Option.some.injEq] at h
    subst h
    exact ⟨cacheMono_refl st, fun c hc => absurd hc (List.not_mem_nil c), fun h => h⟩
  | c :: cs, st, st₁, h => by
    rw [runProviders] at h
    split at h
    · exact absurd h (by simp)
    next i st₂ h₀ =>
      obtain ⟨m₁, hc₁, d₁⟩ := instantiateProvider_inv env fuel c st i st₂ h₀
      obtain ⟨m₂, hs₂, d₂⟩ := runProviders_inv env fuel cs st₂ st₁ h
      refine ⟨cacheMono_trans m₁ m₂, ?_, fun hd => d₂ (d₁ hd)⟩
      intro c' hc'
      rcases List.mem_cons.mp hc' with rfl | hmem
      · exact Option.isSome_iff_exists.mpr ⟨i, m₂ c' i hc₁⟩
      · exact hs₂ c' hmem

theorem reaches_cacheMono {env : Env} {st st₁ : DIState} (h : Reaches env st st₁) :
    CacheMono st st₁ := by
  induction h with
  | refl st => exact cacheMono_refl st
  | step hstep _ ih =>
    exact cacheMono_trans (fun k v hv =>
      (instantiateProvider_inv env _ _ _ _ _ hstep).1 k v hv) ih

theorem resolveCtorParams_ok_get (env : Env) (cache : List (Nat × Nat)) :
    ∀ pt args, resolveCtorParams env cache pt = .ok args →
      ∀ k p, pt.get? k = some p → ∃ i, alget cache p = some i ∧ args.get? k = some i
  | [], args, h, k, p, hk => absurd hk (by simp)
  | c :: cs, args, h, k, p, hk => by
    rw [resolveCtorParams] at h
    split at h
    · exact absurd h (by simp)
    next i hi =>
      split at h
      · exact absurd h (by simp)
      next is his =>
        simp only [Except.ok.injEq] at h
        subst h
        cases k with
        | zero =>
          simp only [List.get?, Option.some.injEq] at hk
          subst hk
          exact ⟨i, hi, rfl⟩
        | succ k =>
          simp only [List.get?] at hk
          exact resolveCtorParams_ok_get env cache cs is his k p hk

theorem resolveCtorParams_ok_forall (env : Env) (cache : List (Nat × Nat)) :
    ∀ pt args, resolveCtorParams env cache pt = .ok args →
      ∀ p ∈ pt, (alget cache p).isSome
  | [], args, _, p, hp => absurd hp (List.not_mem_nil p)
  | c :: cs, args, h, p, hp => by
    rw [resolveCtorParams] at h
    split at h
    · exact absurd h (by simp)
    next i hi =>
      split at h
      · exact absurd h (by simp)
      next is his =>
        rcases List.mem_cons.mp hp with rfl | hmem
        · exact Option.isSome_iff_exists.mpr ⟨i, hi⟩
        · exact resolveCtorParams_ok_forall env cache cs is his p hmem

theorem resolveCtorParams_error_mem (env : Env) (cache : List (Nat × Nat)) :
    ∀ pt e, resolveCtorParams env cache pt = .error e →
      ∃ p ∈ pt, alget cache p = none ∧ e = .missingProvider (env.classes p).name
  | [], e, h => absurd h (by simp [resolveCtorParams])
  | c :: cs, e, h => by
    rw [resolveCtorParams] at h
    split at h
    next hmiss =>
      simp only [Except.error.injEq] at h
      exact ⟨c, List.mem_cons_self c cs, hmiss, h.symm⟩
    next i hi =>
      split at h
      next e₂ he₂ =>
        simp only [Except.error.injEq] at h
        subst h
        obtain ⟨p, hp, hpc, hpe⟩ := resolveCtorParams_error_mem env cache cs e₂ he₂
        exact ⟨p, List.mem_cons_of_mem c hp, hpc, hpe⟩
      · exact absurd h (by simp)

theorem resolveCtorParams_exists_ok (env : Env) (cache : List (Nat × Nat)) :
    ∀ pt, (∀ p ∈ pt, (alget cache p).isSome) →
      ∃ args, resolveCtorParams env cache pt = .ok args
  | [], _ => ⟨[], rfl⟩
  | c :: cs, h => by
    obtain ⟨i, hi⟩ := Option.isSome_iff_exists.mp (h c (List.mem_cons_self c cs))
    obtain ⟨is, his⟩ := resolveCtorParams_exists_ok env cache cs
      (fun p hp => h p (List.mem_cons_of_mem c hp))
    exact ⟨i :: is, by rw [resolveCtorParams, hi, his]⟩

theorem processControllers_cache (env : Env) :
    ∀ cs st ctrls rs app, processControllers env cs st ctrls rs = .ok app →
      app.di.cache = st.cache
  | [], st, ctrls, rs, app, h => by
    simp only [processControllers, Except.ok.injEq] at h
    subst h
    rfl
  | c :: cs, st, ctrls, rs, app, h => by
    rw [processControllers] at h
    split at h
    · exact absurd h (by simp)
    next ptypes hpt =>
      split at h
      · exact absurd h (by simp)
      next args hargs =>
        have hrec := processControllers_cache env cs _ _ _ app h
        exact hrec

theorem processControllers_acc_routes (env : Env) :
    ∀ cs st ctrls rs app, processControllers env cs st ctrls rs = .ok app →
      ∀ r ∈ rs, r ∈ app.routes
  | [], st, ctrls, rs, app, h => by
    simp only [processControllers, Except.ok.injEq] at h
    subst h
    exact fun r hr => hr
  | c :: cs, st, ctrls, rs, app, h => by
    rw [processControllers] at h
    split at h
    · exact absurd h (by simp)
    next ptypes hpt =>
      split at h
      · exact absurd h (by simp)
      next args hargs =>
        intro r hr
        exact processControllers_acc_routes env cs _ _ _ app h r
          (List.mem_append.mpr (Or.inl hr))

theorem processControllers_member_routes (env : Env) :
    ∀ cs st ctrls rs app, processControllers env cs st ctrls rs = .ok app →
      ∀ c ∈ cs, ∃ inst, ∀ r ∈ registerRoutes env c inst, r ∈ app.routes
  | [], _, _, _, _, _, c, hc => absurd hc (List.not_mem_nil c)
  | c₀ :: cs, st, ctrls, rs, app, h, c, hc => by
    rw [processControllers] at h
    split at h
    · exact absurd h (by simp)
    next ptypes hpt =>
      split at h
      · exact absurd h (by simp)
      next args hargs =>
        rcases List.mem_cons.mp hc with rfl | hmem
        · refine ⟨st.nextId, fun r hr => ?_⟩
          exact processControllers_acc_routes env cs _ _ _ app h r
            (List.mem_append.mpr (Or.inr hr))
        · exact processControllers_member_routes env cs _ _ _ app h c hmem

theorem processControllers_ok_resolves (env : Env) :
    ∀ cs st ctrls rs app, processControllers env cs st ctrls rs = .ok app →
      ∀ c ∈ cs, ∃ pt args, (env.classes c).paramtypes = some pt ∧
        resolveCtorParams env st.cache pt = .ok args
  | [], _, _, _, _, _, c, hc => absurd hc (List.not_mem_nil c)
  | c₀ :: cs, st, ctrls, rs, app, h, c, hc => by
    rw [processControllers] at h
    split at h
    · exact absurd h (by simp)
    next ptypes hpt =>
      split at h
      · exact absurd h (by simp)
      next args hargs =>
        rcases List.mem_cons.mp hc with rfl | hmem
        · exact ⟨ptypes, args, hpt, hargs⟩
        · have hrec := processControllers_ok_resolves env cs _ _ _ app h c hmem
          exact hrec

theorem processControllers_error_shape (env : Env) :
    ∀ cs st ctrls rs e, processControllers env cs st ctrls rs = .error e →
      (e = .typeError ∧ ∃ c ∈ cs, (env.classes c).paramtypes = none) ∨
      (∃ c ∈ cs, ∃ pt, (env.classes c).paramtypes = some pt ∧
        ∃ p ∈ pt, alget st.cache p = none ∧ e = .missingProvider (env.classes p).name)
  | [], _, _, _, e, h => absurd h (by simp [processControllers])
  | c₀ :: cs, st, ctrls, rs, e, h => by
    rw [processControllers] at h
    split at h
    next hpt =>
      simp only [Except.error.injEq] at h
      exact Or.inl ⟨h.symm, c₀, List.mem_cons_self c₀ cs, hpt⟩
    next ptypes hpt =>
      split at h
      next e₂ he₂ =>
        simp only [Except.error.injEq] at h
        subst h
        obtain ⟨p, hp, hpc, hpe⟩ := resolveCtorParams_error_mem env st.cache ptypes e₂ he₂
        exact Or.inr ⟨c₀, List.mem_cons_self c₀ cs, ptypes, hpt, p, hp, hpc, hpe⟩
      next args hargs =>
        rcases processControllers_error_shape env cs _ _ _ e h with hleft | hright
        · obtain ⟨he, c, hc, hcp⟩ := hleft
          exact Or.inl ⟨he, c, List.mem_cons_of_mem c₀ hc, hcp⟩
        · obtain ⟨c, hc, pt, hcp, p, hp, hpc, hpe⟩ := hright
          exact Or.inr ⟨c, List.mem_cons_of_mem c₀ hc, pt, hcp, p, hp, hpc, hpe⟩

theorem createApp_run (env : Env) (fuel : Nat) (st : DIState)
    (h : runProviders env fuel env.providers { cache := [], nextId := 0, heap := [] } = some st) :
    createApp env fuel = processControllers env env.controllers st [] [] := by
  rw [createApp, h]

theorem createApp_ok_run (env : Env) (fuel : Nat) (app : App)
    (h : createApp env fuel = .ok app) :
    ∃ st, runProviders env fuel env.providers { cache := [], nextId := 0, heap := [] } = some st ∧
      processControllers env env.controllers st [] [] = .ok app := by
  rw [createApp] at h
  split at h
  · exact absurd h (by simp)
  next st hst => exact ⟨st, hst, h⟩

theorem bindParams_get (count : Nat) (pmeta : List (Nat × ParamMeta)) (req : Request)
    (k : Nat) (hk : k < count) :
    (bindParams count pmeta req).get? k =
      some (match alget pmeta k with
            | none => JsValue.undefined
            | some pm => bindOne pm req) := by
  rw [bindParams, List.get?_map, List.get?_range hk]
  rfl

theorem data_append (a b : String) : (a ++ b).data = a.data ++ b.data := rfl

theorem isPrefixOf_append {α : Type} [BEq α] :
    ∀ (l₁ l₂ l₃ : List α), l₁.isPrefixOf l₂ = true → l₁.isPrefixOf (l₂ ++ l₃) = true
  | [], _, _, _ => by simp [List.isPrefixOf]
  | a :: as, [], l₃, h => by simp [List.isPrefixOf] at h
  | a :: as, b :: bs, l₃, h => by
    simp only [List.isPrefixOf, Bool.and_eq_true, List.cons_append] at h ⊢
    exact ⟨h.1, isPrefixOf_append as bs l₃ h.2⟩

theorem isPrefixOf_refl {α : Type} [BEq α] [LawfulBEq α] :
    ∀ l : List α, l.isPrefixOf l = true
  | [] => by simp [List.isPrefixOf]
  | a :: as => by
    simp only [List.isPrefixOf, Bool.and_eq_true]
    exact ⟨by simp, isPrefixOf_refl as⟩

theorem jsStartsWith_slash_append (s : String) :
    jsStartsWith ("/" ++ s) "/" = true := by
  rw [jsStartsWith, data_append]
  exact isPrefixOf_append _ _ _ (isPrefixOf_refl _)

theorem jsStartsWith_append_of_slash {p : String} (hs : jsStartsWith p "/" = true)
    (s : String) : jsStartsWith (p ++ s) "/" = true := by
  rw [jsStartsWith, data_append]
  rw [jsStartsWith] at hs
  exact isPrefixOf_append _ _ _ hs

theorem fullPath_slash (p : String) (hp : p ≠ "") (path : Option String) :
    jsStartsWith (fullPathOf (some p) path) "/" = true := by
  rw [fullPathOf, normalizePfx]
  split
  next hcond =>
    rw [jsStr]
    exact jsStartsWith_append_of_slash (jsStartsWith_slash_append p) _
  next hcond =>
    rw [jsStr]
    have hb : (p != "" && !(jsStartsWith p "/")) = false := by
      revert hcond
      cases p != "" && !(jsStartsWith p "/") <;> simp
    have hps : jsStartsWith p "/" = true := by
      rcases Bool.and_eq_false_iff.mp hb with h₁ | h₂
      · exact absurd (by simpa using h₁) hp
      · simpa using h₂
    exact jsStartsWith_append_of_slash hps _

/-
Claim theorems.
-/

/-- Claim C1: a successful resolution of a provider class stores the
instance in the provider cache keyed by class identity, and every later
resolution of the same class — from any state reachable by further
provider resolutions — returns the identical cached instance and leaves
the state unchanged (singleton property). -/
theorem c1_provider_singleton (env : Env) (fuel cls : Nat) (st st₁ : DIState) (i : Nat)
    (h : instantiateProvider env fuel cls st = some (i, st₁)) :
    alget st₁.cache cls = some i ∧
    ∀ st₂ fuel₂, Reaches env st₁ st₂ →
      instantiateProvider env (fuel₂ + 1) cls st₂ = some (i, st₂) := by
  have hc := (instantiateProvider_inv env fuel cls st i st₁ h).2.1
  refine ⟨hc, fun st₂ fuel₂ hr => ?_⟩
  exact instantiateProvider_cached env fuel₂ cls st₂ i (reaches_cacheMono hr cls i hc)

/-- Witness for C1: resolving `AuthService` (class 1) of the example
application caches instance 1, and a second resolution returns the
identical instance with the state unchanged. -/
theorem c1_witness :
    instantiateProvider envEx 5 1 { cache := [], nextId := 0, heap := [] } = some (1, stEx) ∧
    alget stEx.cache 1 = some 1 ∧
    instantiateProvider envEx 1 1 stEx = some (1, stEx) := by
  have h : instantiateProvider envEx 5 1 { cache := [], nextId := 0, heap := [] } =
      some (1, stEx) := by decide
  have hmain := c1_provider_singleton envEx 5 1 { cache := [], nextId := 0, heap := [] } stEx 1 h
  exact ⟨h, hmain.1, hmain.2 stEx 0 (Reaches.refl stEx)⟩

/-- Claim C5: on a cache miss, provider resolution is depth-first and
memoized — the declared constructor-parameter classes are resolved first,
in declared order, by the same procedure (the `threadMap` of the recursive
resolver over the `design:paramtypes` list), then the instance is
constructed from the resolved arguments in that order, and it is stored in
the cache keyed by its class identity in the returned state. -/
theorem c5_depth_first_memoized (env : Env) (fuel cls : Nat) (st st₁ : DIState) (i : Nat)
    (hmiss : alget st.cache cls = none)
    (h : instantiateProvider env (fuel + 1) cls st = some (i, st₁)) :
    ∃ args st₂,
      threadMap (instantiateProvider env fuel) (((env.classes cls).paramtypes).getD []) st =
        some (args, st₂) ∧
      i = st₂.nextId ∧
      st₁ = { cache := (cls, i) :: st₂.cache, nextId := st₂.nextId + 1,
              heap := (i, (cls, args)) :: st₂.heap } ∧
      alget st₁.cache cls = some i ∧
      alget st₁.heap i = some (cls, args) := by
  rw [instantiateProvider_succ] at h
  split at h
  next inst h₀ =>
    rw [hmiss] at h₀
    exact Option.noConfusion h₀
  next h₀ =>
    split at h
    · exact absurd h (by simp)
    next args st₂ h₁ =>
      simp only [Option.some.injEq, Prod.mk.injEq] at h
      rcases h with ⟨rfl, rfl⟩
      refine ⟨args, st₂, h₁, rfl, rfl, ?_, ?_⟩
      · rw [alget_cons]
        simp
      · rw [alget_cons]
        simp

/-- Witness for C5: resolving `AuthService` (class 1) from the empty state
first resolves its dependency `UserRepository` (class 0), then constructs
and caches the instance. -/
theorem c5_witness :
    alget ({ cache := [], nextId := 0, heap := [] } : DIState).cache 1 = none ∧
    instantiateProvider envEx 5 1 { cache := [], nextId := 0, heap := [] } = some (1, stEx) ∧
    (∃ args st₂,
      threadMap (instantiateProvider envEx 4) (((envEx.classes 1).paramtypes).getD [])
          { cache := [], nextId := 0, heap := [] } = some (args, st₂) ∧
      1 = st₂.nextId ∧
      stEx = { cache := (1, 1) :: st₂.cache, nextId := st₂.nextId + 1,
               heap := (1, (1, args)) :: st₂.heap } ∧
      alget stEx.cache 1 = some 1 ∧
      alget stEx.heap 1 = some (1, args)) :=
  ⟨rfl, by decide,
    c5_depth_first_memoized envEx 4 1 { cache := [], nextId := 0, heap := [] } stEx 1 rfl
      (by decide)⟩

/-- Claim C6: when `createApp` succeeds, the eager provider pass ran first
and reached a state in which every class listed in the providers list is
cached; the controller pass leaves that provider cache unchanged, so by the
time controllers are instantiated the cache already contains every listed
provider; and two controller constructor parameters naming the same
provider class resolve to the identical cached instance. -/
theorem c6_eager_resolution (env : Env) (fuel : Nat) (app : App)
    (h : createApp env fuel = .ok app) :
    ∃ stP, runProviders env fuel env.providers { cache := [], nextId := 0, heap := [] } =
        some stP ∧
      (∀ c ∈ env.providers, (alget stP.cache c).isSome) ∧
      app.di.cache = stP.cache ∧
      (∀ pt₁ pt₂ args₁ args₂ k₁ k₂ p,
        resolveCtorParams env stP.cache pt₁ = .ok args₁ →
        resolveCtorParams env stP.cache pt₂ = .ok args₂ →
        pt₁.get? k₁ = some p → pt₂.get? k₂ = some p →
        args₁.get? k₁ = args₂.get? k₂) := by
  obtain ⟨stP, hrun, hpc⟩ := createApp_ok_run env fuel app h
  obtain ⟨-, hall, -⟩ := runProviders_inv env fuel env.providers _ stP hrun
  refine ⟨stP, hrun, hall, processControllers_cache env _ _ _ _ app hpc, ?_⟩
  intro pt₁ pt₂ args₁ args₂ k₁ k₂ p h₁ h₂ hg₁ hg₂
  obtain ⟨i₁, hi₁, ha₁⟩ := resolveCtorParams_ok_get env stP.cache pt₁ args₁ h₁ k₁ p hg₁
  obtain ⟨i₂, hi₂, ha₂⟩ := resolveCtorParams_ok_get env stP.cache pt₂ args₂ h₂ k₂ p hg₂
  have hi : i₁ = i₂ := Option.some.inj (hi₁.symm.trans hi₂)
  rw [ha₁, ha₂, hi]

/-- Witness for C6 at the example application. -/
theorem c6_witness :
    createApp envEx 5 = .ok appEx ∧
    (∃ stP, runProviders envEx 5 envEx.providers { cache := [], nextId := 0, heap := [] } =
        some stP ∧
      (∀ c ∈ envEx.providers, (alget stP.cache c).isSome) ∧
      appEx.di.cache = stP.cache ∧
      (∀ pt₁ pt₂ args₁ args₂ k₁ k₂ p,
        resolveCtorParams envEx stP.cache pt₁ = .ok args₁ →
        resolveCtorParams envEx stP.cache pt₂ = .ok args₂ →
        pt₁.get? k₁ = some p → pt₂.get? k₂ = some p →
        args₁.get? k₁ = args₂.get? k₂)) :=
  ⟨by decide, c6_eager_resolution envEx 5 appEx (by decide)⟩

/-- Claim C9: after the eager provider pass the cache is closed under
declared constructor dependencies — it contains the full transitive
dependency closure of the listed providers, which are all cached — and
controller constructor-parameter resolution raises the missing-provider
configuration error exactly when some parameter class is absent from that
cache, the error naming such an absent class; hence a class that is only a
transitive constructor dependency of a listed provider need not itself be
listed. -/
theorem c9_cache_closure (env : Env) (fuel : Nat) (stP : DIState)
    (hP : runProviders env fuel env.providers { cache := [], nextId := 0, heap := [] } =
      some stP) :
    DepClosed env stP.cache ∧
    (∀ c ∈ env.providers, (alget stP.cache c).isSome) ∧
    (∀ pt : List Nat,
      ((∃ e, resolveCtorParams env stP.cache pt = .error e) ↔
        ∃ p ∈ pt, alget stP.cache p = none) ∧
      (∀ n, resolveCtorParams env stP.cache pt = .error (.missingProvider n) →
        ∃ p ∈ pt, alget stP.cache p = none ∧ n = (env.classes p).name)) := by
  obtain ⟨-, hall, hdc⟩ := runProviders_inv env fuel env.providers _ stP hP
  have hclosed : DepClosed env stP.cache := hdc (fun c i hci => nomatch hci)
  refine ⟨hclosed, hall, fun pt => ⟨⟨?_, ?_⟩, ?_⟩⟩
  · rintro ⟨e, he⟩
    obtain ⟨p, hp, hpc, -⟩ := resolveCtorParams_error_mem env stP.cache pt e he
    exact ⟨p, hp, hpc⟩
  · rintro ⟨p, hp, hpc⟩
    cases hres : resolveCtorParams env stP.cache pt with
    | error e => exact ⟨e, rfl⟩
    | ok args =>
      have hs := resolveCtorParams_ok_forall env stP.cache pt args hres p hp
      rw [hpc] at hs
      exact absurd hs (by simp)
  · intro n hn
    obtain ⟨p, hp, hpc, hpe⟩ := resolveCtorParams_error_mem env stP.cache pt _ hn
    exact ⟨p, hp, hpc, AssembleError.missingProvider.inj hpe⟩

/-- Witness for C9 at the example application, whose `UserRepository`
(class 0) is an unlisted transitive dependency of the listed
`AuthService`. -/
theorem c9_witness :
    runProviders envEx 5 envEx.providers { cache := [], nextId := 0, heap := [] } = some stEx ∧
    (DepClosed envEx stEx.cache ∧
    (∀ c ∈ envEx.providers, (alget stEx.cache c).isSome) ∧
    (∀ pt : List Nat,
      ((∃ e, resolveCtorParams envEx stEx.cache pt = .error e) ↔
        ∃ p ∈ pt, alget stEx.cache p = none) ∧
      (∀ n, resolveCtorParams envEx stEx.cache pt = .error (.missingProvider n) →
        ∃ p ∈ pt, alget stEx.cache p = none ∧ n = (envEx.classes p).name))) :=
  ⟨by decide, c9_cache_closure envEx 5 stEx (by decide)⟩

/-- Claim C3: for a controller of the module's list with a supplied
prefix, a route is registered for exactly the methods carrying HTTP-method
metadata; each registered full path is the prefix — normalized to start
with `/` when non-empty — concatenated with the method's path template;
prefix `auth` with path `/login` yields `/auth/login`; and every
registered full path begins with `/` whenever the supplied prefix is
non-empty. -/
theorem c3_route_registration (env : Env) (fuel : Nat) (app : App) (c : Nat) (p : String)
    (h : createApp env fuel = .ok app) (hc : c ∈ env.controllers)
    (hp : (env.classes c).ctrlPfx = some p) :
    ∃ inst,
      (∀ m ∈ (env.classes c).methods, ∀ v, m.httpMethod = some v →
        ∃ r, r ∈ registerRoutes env c inst ∧ r ∈ app.routes ∧ r.methodName = m.name ∧
          r.httpMethod = v ∧ r.fullPath = jsStr (normalizePfx (some p)) ++ jsStr m.path) ∧
      (∀ r ∈ registerRoutes env c inst, ∃ m, m ∈ (env.classes c).methods ∧
        m.httpMethod.isSome = true ∧ r.methodName = m.name ∧
        r.fullPath = jsStr (normalizePfx (some p)) ++ jsStr m.path) ∧
      (p ≠ "" → ∀ r ∈ registerRoutes env c inst, jsStartsWith r.fullPath "/" = true) ∧
      jsStr (normalizePfx (some "auth")) ++ jsStr (some "/login") = "/auth/login" := by
  obtain ⟨stP, hrun, hpc⟩ := createApp_ok_run env fuel app h
  obtain ⟨inst, hinst⟩ := processControllers_member_routes env _ _ _ _ app hpc c hc
  refine ⟨inst, ?_, ?_, ?_, by decide⟩
  · intro m hm v hv
    have hmem : m ∈ (env.classes c).methods.filter (fun m => m.httpMethod.isSome) :=
      List.mem_filter.mpr ⟨hm, by rw [hv]; rfl⟩
    refine ⟨_, List.mem_map_of_mem _ hmem, hinst _ (List.mem_map_of_mem _ hmem), rfl, ?_, ?_⟩
    · show (m.httpMethod.getD HttpMethod.GET) = v
      rw [hv]
      rfl
    · show fullPathOf (env.classes c).ctrlPfx m.path = _
      rw [hp]
      rfl
  · intro r hr
    obtain ⟨m, hmf, hmr⟩ := List.mem_map.mp hr
    have hm := List.mem_filter.mp hmf
    refine ⟨m, hm.1, hm.2, ?_, ?_⟩
    · rw [← hmr]
    · rw [← hmr]
      show fullPathOf (env.classes c).ctrlPfx m.path = _
      rw [hp]
      rfl
  · intro hne r hr
    obtain ⟨m, hmf, hmr⟩ := List.mem_map.mp hr
    rw [← hmr]
    show jsStartsWith (fullPathOf (env.classes c).ctrlPfx m.path) "/" = true
    rw [hp]
    exact fullPath_slash p hne m.path

/-- Witness for C3 at the example application: the `AuthController`
(class 2, prefix `auth`). -/
theorem c3_witness :
    createApp envEx 5 = .ok appEx ∧ 2 ∈ envEx.controllers ∧
    (envEx.classes 2).ctrlPfx = some "auth" ∧
    (∃ inst,
      (∀ m ∈ (envEx.classes 2).methods, ∀ v, m.httpMethod = some v →
        ∃ r, r ∈ registerRoutes envEx 2 inst ∧ r ∈ appEx.routes ∧ r.methodName = m.name ∧
          r.httpMethod = v ∧
          r.fullPath = jsStr (normalizePfx (some "auth")) ++ jsStr m.path) ∧
      (∀ r ∈ registerRoutes envEx 2 inst, ∃ m, m ∈ (envEx.classes 2).methods ∧
        m.httpMethod.isSome = true ∧ r.methodName = m.name ∧
        r.fullPath = jsStr (normalizePfx (some "auth")) ++ jsStr m.path) ∧
      ("auth" ≠ "" → ∀ r ∈ registerRoutes envEx 2 inst,
        jsStartsWith r.fullPath "/" = true) ∧
      jsStr (normalizePfx (some "auth")) ++ jsStr (some "/login") = "/auth/login") :=
  ⟨by decide, by decide, by decide,
    c3_route_registration envEx 5 appEx 2 "auth" (by decide) (by decide) (by decide)⟩

/-- Counterexample to claim C4 as stated: in `envC4` the controller
(class 2) has constructor parameter class 1, which is never listed in the
providers list, and yet assembly succeeds — class 1 is in the provider
cache as a dependency of the listed class 0, so no configuration error is
raised. -/
theorem c4_counterexample :
    exceptOk (createApp envC4 4) = true ∧
    1 ∉ envC4.providers ∧
    2 ∈ envC4.controllers ∧
    (envC4.classes 2).paramtypes = some [1] := by decide

/-- Claim C4 amended: assembly fails, before any request is served, with
the configuration error naming a missing class when a controller
constructor parameter class is absent from the provider cache built by the
eager pass (absence from the providers list alone is not enough: a class
cached as a transitive dependency of a listed provider is found there).
Controllers are assumed annotated, per the metadata invariant of the
spec. -/
theorem c4_missing_provider_amended (env : Env) (fuel : Nat) (stP : DIState)
    (c p : Nat) (pt : List Nat)
    (hP : runProviders env fuel env.providers { cache := [], nextId := 0, heap := [] } =
      some stP)
    (hall : ∀ c₂ ∈ env.controllers, ((env.classes c₂).paramtypes).isSome)
    (hc : c ∈ env.controllers)
    (hpt : (env.classes c).paramtypes = some pt)
    (hp : p ∈ pt)
    (hmiss : alget stP.cache p = none) :
    ∃ n q, createApp env fuel = .error (.missingProvider n) ∧
      alget stP.cache q = none ∧ n = (env.classes q).name ∧
      errorMessage (.missingProvider n) =
        "You forgot to add " ++ n ++ " to the providers array of the module" := by
  rw [createApp_run env fuel stP hP]
  cases hres : processControllers env env.controllers stP [] [] with
  | ok app =>
    obtain ⟨pt₂, args, hpt₂, hargs⟩ :=
      processControllers_ok_resolves env _ _ _ _ app hres c hc
    rw [hpt] at hpt₂
    obtain rfl : pt = pt₂ := Option.some.inj hpt₂
    have hforall := resolveCtorParams_ok_forall env stP.cache pt args hargs p hp
    rw [hmiss] at hforall
    exact absurd hforall (by simp)
  | error e =>
    rcases processControllers_error_shape env _ _ _ _ e hres with
      ⟨he, c₂, hc₂, hcp⟩ | ⟨c₂, hc₂, pt₂, hcp, q, hq, hqc, hqe⟩
    · have hs := hall c₂ hc₂
      rw [hcp] at hs
      exact absurd hs (by simp)
    · exact ⟨(env.classes q).name, q, by rw [hqe], hqc, rfl, rfl⟩

/-- Witness for the amended C4: in `envC4b` the controller (class 2)
depends on class 3 (`Ghost`), which is neither listed nor cached, and
assembly fails naming it. -/
theorem c4_witness :
    runProviders envC4b 3 envC4b.providers { cache := [], nextId := 0, heap := [] } =
      some { cache := [(0, 0)], nextId := 1, heap := [(0, (0, []))] } ∧
    (envC4b.classes 2).paramtypes = some [3] ∧
    alget ({ cache := [(0, 0)], nextId := 1,
             heap := [(0, (0, []))] } : DIState).cache 3 = none ∧
    (∃ n q, createApp envC4b 3 = .error (.missingProvider n) ∧
      alget ({ cache := [(0, 0)], nextId := 1,
               heap := [(0, (0, []))] } : DIState).cache q = none ∧
      n = (envC4b.classes q).name ∧
      errorMessage (.missingProvider n) =
        "You forgot to add " ++ n ++ " to the providers array of the module") :=
  ⟨by decide, by decide, by decide,
    c4_missing_provider_amended envC4b 3
      { cache := [(0, 0)], nextId := 1, heap := [(0, (0, []))] } 2 3 [3]
      (by decide) (by decide) (by decide) (by decide) (by decide) (by decide)⟩

/-- Counterexample to claim C7 as stated: class 0 of `envC7` carries no
annotation, so its constructor parameter-type sequence is unavailable, and
instantiating it as a controller does not behave as if it had zero
declared parameters — assembly aborts with a `TypeError`. -/
theorem c7_counterexample :
    (envC7.classes 0).paramtypes = none ∧
    0 ∈ envC7.controllers ∧
    createApp envC7 1 = .error .typeError := by decide

/-- Claim C7 amended: a missing constructor parameter-type sequence is
treated as empty only by provider resolution, which constructs such a
class with zero arguments; consulting the sequence while instantiating the
class as a controller aborts assembly with a `TypeError`, and consulting a
missing method-level sequence at request time fails the request, rather
than proceeding with zero parameters. -/
theorem c7_missing_paramtypes_amended (env : Env) :
    (∀ fuel cls st, (env.classes cls).paramtypes = none → alget st.cache cls = none →
      instantiateProvider env (fuel + 1) cls st =
        some (st.nextId,
          { cache := (cls, st.nextId) :: st.cache, nextId := st.nextId + 1,
            heap := (st.nextId, (cls, [])) :: st.heap })) ∧
    (∀ c cs st ctrls rs, (env.classes c).paramtypes = none →
      processControllers env (c :: cs) st ctrls rs = .error .typeError) ∧
    (∀ invoke app r req, methodParamCount env r.ctrlClass r.methodName = none →
      handleRequest env invoke app r req = (none, app)) := by
  refine ⟨?_, ?_, ?_⟩
  · intro fuel cls st hnone hmiss
    rw [instantiateProvider_succ, hmiss, hnone]
    rfl
  · intro c cs st ctrls rs hnone
    rw [processControllers, hnone]
  · intro invoke app r req hnone
    rw [handleRequest, hnone]

/-- Witness for the amended C7 on `envC7`, whose classes carry no
annotations. -/
theorem c7_witness :
    ((envC7.classes 0).paramtypes = none ∧
      instantiateProvider envC7 1 0 { cache := [], nextId := 0, heap := [] } =
        some (0, { cache := [(0, 0)], nextId := 1, heap := [(0, (0, []))] })) ∧
    processControllers envC7 [0] { cache := [], nextId := 0, heap := [] } [] [] =
      .error .typeError ∧
    handleRequest envC7 (fun _ _ _ => JsValue.undefined)
      { di := { cache := [], nextId := 0, heap := [] }, ctrlInstances := [], routes := [] }
      { httpMethod := HttpMethod.GET, fullPath := "/x", ctrlInstance := 0, ctrlClass := 0,
        methodName := "x", paramsMeta := [] }
      reqLogin =
      (none,
        { di := { cache := [], nextId := 0, heap := [] }, ctrlInstances := [],
          routes := [] }) :=
  ⟨⟨rfl, (c7_missing_paramtypes_amended envC7).1 0 0 { cache := [], nextId := 0, heap := [] }
      rfl rfl⟩,
    (c7_missing_paramtypes_amended envC7).2.1 0 [] { cache := [], nextId := 0, heap := [] }
      [] [] rfl,
    (c7_missing_paramtypes_amended envC7).2.2 (fun _ _ _ => JsValue.undefined)
      { di := { cache := [], nextId := 0, heap := [] }, ctrlInstances := [], routes := [] }
      { httpMethod := HttpMethod.GET, fullPath := "/x", ctrlInstance := 0, ctrlClass := 0,
        methodName := "x", paramsMeta := [] }
      reqLogin rfl⟩

/-- Counterexample to claim C2 as stated: a `BODY` descriptor that carries
the key `""` does not receive the projection of the body field named `""`
— request-time binding passes the entire parsed body instead. -/
theorem c2_counterexample :
    bindParams 1 [(0, { key := some "", type := HandlerParamType.BODY })] reqEmptyKey =
      [reqEmptyKey.body] ∧
    JsValue.getField reqEmptyKey.body "" = JsValue.str "x" ∧
    reqEmptyKey.body ≠ JsValue.getField reqEmptyKey.body "" :=
  ⟨rfl, rfl, fun h => JsValue.noConfusion h⟩

/-- Claim C2 amended: for each declared parameter position of a handler
method, the bound argument is `undefined` when no descriptor is present;
otherwise the source object is the parsed body for `BODY` and the
route-parameters object for `ROUTE_PARAM`, and the field named by the
descriptor key is projected exactly when the key is a non-empty string —
an absent or empty key passes the whole source object.  In particular a
`ROUTE_PARAM` descriptor with key `id` on `/profile/:id` invoked with
`id=42` receives the string `"42"`, and a `BODY` descriptor with no key
receives the entire parsed body unmodified. -/
theorem c2_param_binding_amended :
    (∀ count pmeta req k, k < count →
      (alget pmeta k = none →
        (bindParams count pmeta req).get? k = some JsValue.undefined) ∧
      (∀ pm, alget pmeta k = some pm →
        (bindParams count pmeta req).get? k =
          some (if jsTruthy pm.key then
              JsValue.getField
                (match pm.type with
                 | HandlerParamType.BODY => req.body
                 | HandlerParamType.ROUTE_PARAM => req.params) (pm.key.getD "")
            else
              match pm.type with
              | HandlerParamType.BODY => req.body
              | HandlerParamType.ROUTE_PARAM => req.params))) ∧
    bindParams 1 [(0, { key := some "id", type := HandlerParamType.ROUTE_PARAM })]
      reqProfile = [JsValue.str "42"] ∧
    bindParams 1 [(0, { key := none, type := HandlerParamType.BODY })] reqLogin =
      [reqLogin.body] := by
  refine ⟨?_, rfl, rfl⟩
  intro count pmeta req k hk
  constructor
  · intro hnone
    rw [bindParams_get count pmeta req k hk, hnone]
  · intro pm hsome
    rw [bindParams_get count pmeta req k hk, hsome]
    rfl

/-- Witness for the amended C2 at the `/profile/:id` example. -/
theorem c2_witness :
    (0 : Nat) < 1 ∧
    (bindParams 1 [(0, { key := some "id", type := HandlerParamType.ROUTE_PARAM })]
        reqProfile).get? 0 = some (JsValue.str "42") ∧
    (bindParams 1 [(0, { key := none, type := HandlerParamType.BODY })]
        reqLogin).get? 0 = some reqLogin.body :=
  ⟨by decide,
    ((c2_param_binding_amended).1 1
        [(0, { key := some "id", type := HandlerParamType.ROUTE_PARAM })] reqProfile 0
        (by decide)).2 { key := some "id", type := HandlerParamType.ROUTE_PARAM } rfl,
    ((c2_param_binding_amended).1 1
        [(0, { key := none, type := HandlerParamType.BODY })] reqLogin 0
        (by decide)).2 { key := none, type := HandlerParamType.BODY } rfl⟩

/-- Claim C8: handling a request writes no shared assembly state — the
application (provider cache, controller instances, registered routes) is
returned unchanged; the handler depends on the request only through its
route-parameters object and parsed body; and the response is the (awaited)
result of invoking the controller method on the bound arguments. -/
theorem c8_handler_frame (env : Env) (invoke : Nat → String → List JsValue → JsValue)
    (app : App) (r : Route) (req : Request) :
    (handleRequest env invoke app r req).2 = app ∧
    (∀ req₂ : Request, req₂.params = req.params → req₂.body = req.body →
      handleRequest env invoke app r req₂ = handleRequest env invoke app r req) ∧
    (handleRequest env invoke app r req).1 =
      (match methodParamCount env r.ctrlClass r.methodName with
       | none => none
       | some count =>
         some (invoke r.ctrlInstance r.methodName (bindParams count r.paramsMeta req))) := by
  refine ⟨?_, ?_, ?_⟩
  · rw [handleRequest]
    cases methodParamCount env r.ctrlClass r.methodName <;> rfl
  · intro req₂ hp hb
    have hf : (fun index =>
        match alget r.paramsMeta index with
        | none => JsValue.undefined
        | some pm => bindOne pm req₂) =
        (fun index =>
        match alget r.paramsMeta index with
        | none => JsValue.undefined
        | some pm => bindOne pm req) := by
      funext index
      cases alget r.paramsMeta index with
      | none => rfl
      | some pm =>
        show bindOne pm req₂ = bindOne pm req
        rw [bindOne, bindOne, hp, hb]
    rw [handleRequest, handleRequest]
    cases methodParamCount env r.ctrlClass r.methodName with
    | none => rfl
    | some count =>
      have hbind : bindParams count r.paramsMeta req₂ = bindParams count r.paramsMeta req :=
        congrArg (fun f => List.map f (List.range count)) hf
      show (some (invoke r.ctrlInstance r.methodName (bindParams count r.paramsMeta req₂)),
          app) =
        (some (invoke r.ctrlInstance r.methodName (bindParams count r.paramsMeta req)), app)
      rw [hbind]
  · rw [handleRequest]
    cases methodParamCount env r.ctrlClass r.methodName <;> rfl

/-- Witness for C8: a request to the example `profile` route leaves the
assembled application unchanged, two requests differing only in headers
are handled identically, and the response is the invoked result. -/
theorem c8_witness :
    (handleRequest envEx (fun _ _ _ => JsValue.str "ok") appEx
        { httpMethod := HttpMethod.GET, fullPath := "/auth/profile/:id", ctrlInstance := 2,
          ctrlClass := 2, methodName := "profile",
          paramsMeta := [(0, { key := some "id", type := HandlerParamType.ROUTE_PARAM })] }
        reqProfile).2 = appEx ∧
    handleRequest envEx (fun _ _ _ => JsValue.str "ok") appEx
        { httpMethod := HttpMethod.GET, fullPath := "/auth/profile/:id", ctrlInstance := 2,
          ctrlClass := 2, methodName := "profile",
          paramsMeta := [(0, { key := some "id", type := HandlerParamType.ROUTE_PARAM })] }
        { params := reqProfile.params, body := reqProfile.body, headers := [] } =
      handleRequest envEx (fun _ _ _ => JsValue.str "ok") appEx
        { httpMethod := HttpMethod.GET, fullPath := "/auth/profile/:id", ctrlInstance := 2,
          ctrlClass := 2, methodName := "profile",
          paramsMeta := [(0, { key := some "id", type := HandlerParamType.ROUTE_PARAM })] }
        reqProfile ∧
    (handleRequest envEx (fun _ _ _ => JsValue.str "ok") appEx
        { httpMethod := HttpMethod.GET, fullPath := "/auth/profile/:id", ctrlInstance := 2,
          ctrlClass := 2, methodName := "profile",
          paramsMeta := [(0, { key := some "id", type := HandlerParamType.ROUTE_PARAM })] }
        reqProfile).1 = some (JsValue.str "ok") :=
  ⟨(c8_handler_frame envEx (fun _ _ _ => JsValue.str "ok") appEx
      { httpMethod := HttpMethod.GET, fullPath := "/auth/profile/:id", ctrlInstance := 2,
        ctrlClass := 2, methodName := "profile",
        paramsMeta := [(0, { key := some "id", type := HandlerParamType.ROUTE_PARAM })] }
      reqProfile).1,
    (c8_handler_frame envEx (fun _ _ _ => JsValue.str "ok") appEx
      { httpMethod := HttpMethod.GET, fullPath := "/auth/profile/:id", ctrlInstance := 2,
        ctrlClass := 2, methodName := "profile",
        paramsMeta := [(0, { key := some "id", type := HandlerParamType.ROUTE_PARAM })] }
      reqProfile).2.1
      { params := reqProfile.params, body := reqProfile.body, headers := [] } rfl rfl,
    (c8_handler_frame envEx (fun _ _ _ => JsValue.str "ok") appEx
      { httpMethod := HttpMethod.GET, fullPath := "/auth/profile/:id", ctrlInstance := 2,
        ctrlClass := 2, methodName := "profile",
        paramsMeta := [(0, { key := some "id", type := HandlerParamType.ROUTE_PARAM })] }
      reqProfile).2.2⟩

/-- Claim C10: a parameter descriptor whose key is the empty string binds
identically to one with an absent key — the whole source object (all
route parameters, or the whole body) is passed — and field projection
happens only when the key is a non-empty string; in particular a
`ROUTE_PARAM` descriptor stored with key `""` receives the entire
route-parameters object at its position. -/
theorem c10_empty_key :
    (∀ t req, bindOne { key := some "", type := t } req =
      bindOne { key := none, type := t } req) ∧
    (∀ k t req, k ≠ "" →
      bindOne { key := some k, type := t } req =
        JsValue.getField
          (match t with
           | HandlerParamType.BODY => req.body
           | HandlerParamType.ROUTE_PARAM => req.params) k) ∧
    (∀ count pmeta idx req,
      alget pmeta idx = some { key := some "", type := HandlerParamType.ROUTE_PARAM } →
      idx < count →
      (bindParams count pmeta req).get? idx = some req.params) := by
  refine ⟨?_, ?_, ?_⟩
  · intro t req
    rfl
  · intro k t req hk
    have ht : jsTruthy (some k) = true := by
      simpa [jsTruthy] using hk
    rw [bindOne, ht]
    rfl
  · intro count pmeta idx req hidx hcount
    rw [bindParams_get count pmeta req idx hcount, hidx]
    rfl

/-- Witness for C10 at the example requests. -/
theorem c10_witness :
    bindOne { key := some "", type := HandlerParamType.BODY } reqEmptyKey =
      bindOne { key := none, type := HandlerParamType.BODY } reqEmptyKey ∧
    ("id" ≠ "" ∧
      bindOne { key := some "id", type := HandlerParamType.ROUTE_PARAM } reqProfile =
        JsValue.str "42") ∧
    ((0 : Nat) < 1 ∧
      (bindParams 1 [(0, { key := some "", type := HandlerParamType.ROUTE_PARAM })]
          reqProfile).get? 0 = some reqProfile.params) :=
  ⟨(c10_empty_key).1 HandlerParamType.BODY reqEmptyKey,
    ⟨by decide,
      (c10_empty_key).2.1 "id" HandlerParamType.ROUTE_PARAM reqProfile (by decide)⟩,
    ⟨by decide,
      (c10_empty_key).2.2 1
        [(0, { key := some "", type := HandlerParamType.ROUTE_PARAM })] 0 reqProfile rfl
        (by decide)⟩⟩

end OwnNest
